import Mathlib

/-!
Verification development for the `nf` hierarchical task manager
(`main.go`).  The development shallowly embeds:

* the store table of task records and the three SQL commands the
  program issues against it (`deleteTask`, `updateTask`, insertion is
  modelled at the command level),
* the tree builder `loadTasks` (record set → forest of `Task` nodes),
* the sibling sort `sortTasks`,
* the flattener `buildFlatView` and the expansion toggle,
* the cursor movements of `handleNormalMode` and the scroll
  controller `adjustScroll`,
* the modal input handlers `handleInputMode` (two-step creation) and
  `handleEditMode` (single-buffer edit), together with the string
  helpers they rely on (`strconv.Atoi`, `strings.TrimSpace`,
  `strings.SplitN`).

Go `int` values are modelled as `Int`; timestamps (`time.Time`,
compared only with `Before`) as `Int`; SQL rows as a `List` of
records.  Everything is computable.
-/

namespace NF

/-- A row of the `tasks` table (see `initDB` in main.go): id, title,
priority, creation time, optional parent id. -/
structure TaskRec where
  id : Int
  title : String
  priority : Int
  createdAt : Int
  parentId : Option Int
deriving DecidableEq, Repr

/-- `deleteTask` (main.go): executes
`DELETE FROM tasks WHERE id = ? OR parent_id = ?`.
The schema of `initDB` declares `FOREIGN KEY (parent_id) REFERENCES
tasks (id) ON DELETE CASCADE`, but the connection is opened with the
plain DSN (no foreign-key pragma), and SQLite leaves foreign-key
enforcement off by default, so the declared cascade never fires:
exactly the rows matched by the WHERE clause are removed, i.e. the
task itself and its direct children only. -/
def deleteTask (store : List TaskRec) (taskID : Int) : List TaskRec :=
  store.filter (fun r => !(decide (r.id = taskID) || decide (r.parentId = some taskID)))

/-- `updateTask` (main.go): executes
`UPDATE tasks SET title = ?, priority = ? WHERE id = ?`. -/
def updateTask (store : List TaskRec) (taskID : Int) (title : String) (priority : Int) :
    List TaskRec :=
  store.map (fun r =>
    if r.id = taskID then { r with title := title, priority := priority } else r)

/-- The in-memory `Task` struct of main.go: id, title, priority,
creation time, parent link, owned children, UI expansion flag. -/
inductive Task : Type where
  | node (id : Int) (title : String) (priority : Int) (createdAt : Int)
      (parentId : Option Int) (children : List Task) (isExpanded : Bool) : Task

def Task.id : Task → Int
  | .node i _ _ _ _ _ _ => i

def Task.title : Task → String
  | .node _ t _ _ _ _ _ => t

def Task.priority : Task → Int
  | .node _ _ p _ _ _ _ => p

def Task.createdAt : Task → Int
  | .node _ _ _ c _ _ _ => c

def Task.parentId : Task → Option Int
  | .node _ _ _ _ pid _ _ => pid

def Task.children : Task → List Task
  | .node _ _ _ _ _ ch _ => ch

def Task.isExpanded : Task → Bool
  | .node _ _ _ _ _ _ ex => ex

instance : Inhabited Task := ⟨.node 0 "" 0 0 none [] false⟩

/-- The comparator of `sortTasks` (main.go), as a relation: the task
`a` may come before `b` when `a` has strictly higher priority, or
equal priority and a creation time no later than `b`'s.  This is the
negation of the Go `less(j, i)`, i.e. the total preorder the sorted
slice is ordered by. -/
def taskLEP (a b : Task) : Prop :=
  b.priority < a.priority ∨ (a.priority = b.priority ∧ a.createdAt ≤ b.createdAt)

instance : DecidableRel taskLEP := fun a b => by
  unfold taskLEP
  infer_instance

instance : IsTotal Task taskLEP :=
  ⟨fun a b => by unfold taskLEP; omega⟩

instance : IsTrans Task taskLEP :=
  ⟨fun a b c hab hbc => by
    unfold taskLEP at hab hbc ⊢
    omega⟩

/-- `sortTasks` (main.go) sorts a sibling slice with `sort.Slice` by
priority descending, ties broken by creation time ascending.
`sort.Slice` is not a stable sort, so any rearrangement sorted by the
comparator's preorder is a faithful model; we use insertion sort. -/
def sortTasks (l : List Task) : List Task :=
  List.insertionSort taskLEP l

/-- One node of the hierarchy built by `loadTasks` (main.go): a record
becomes a node whose children are the (sorted) nodes of the records
whose `parent_id` equals its id, and every loaded node starts
expanded.  Go links children by pointer mutation in a single pass; the
recursion here gathers the same children sets.  The `fuel` argument
only bounds the recursion depth; `loadTasks` passes the number of
records, which covers every chain reachable from a root. -/
def buildTree (recs : List TaskRec) : Nat → TaskRec → Task
  | 0, r => .node r.id r.title r.priority r.createdAt r.parentId [] true
  | fuel + 1, r =>
    .node r.id r.title r.priority r.createdAt r.parentId
      (sortTasks ((recs.filter (fun c => decide (c.parentId = some r.id))).map
        (buildTree recs fuel))) true

/-- `loadTasks` (main.go): the forest exposed as `tm.tasks`.  Records
with no parent become roots; every other record is appended to its
parent's children when the parent id resolves (records whose parent id
resolves to no loaded record are appended nowhere); the root list and
every children list are then sorted with `sortTasks`. -/
def loadTasks (recs : List TaskRec) : List Task :=
  sortTasks ((recs.filter (fun r => decide (r.parentId = none))).map
    (buildTree recs recs.length))

/-- `buildFlatView` (main.go): appends each task of the slice, then
recurses into its children exactly when it is expanded and has at
least one child.  The depth argument is threaded as in the source
(it only feeds indentation). -/
def buildFlatView : List Task → Int → List Task
  | [], _ => []
  | .node i t p c pid ch ex :: ts, depth =>
    .node i t p c pid ch ex ::
      ((if ex && !ch.isEmpty then buildFlatView ch (depth + 1) else []) ++
        buildFlatView ts depth)

/-- The flat view rebuilt by `rebuildFlatView` (main.go):
`buildFlatView(tm.tasks, 0)`. -/
def flatViewOf (F : List Task) : List Task :=
  buildFlatView F 0

/-- Modelled from the spec wording of the Flattener contract (§4.2):
pre-order depth-first traversal that keeps every visited node and
skips the whole subtree of a node whose `isExpanded` is false.  Used
as the comparison point for C5. -/
def specFlatten : List Task → List Task
  | [] => []
  | .node i t p c pid ch ex :: ts =>
    .node i t p c pid ch ex :: ((if ex then specFlatten ch else []) ++ specFlatten ts)

/-- Every node of a forest (the nodes themselves, ignoring expansion):
used to state sibling-sortedness, id uniqueness and orphan absence. -/
def allNodesF : List Task → List Task
  | [] => []
  | .node i t p c pid ch ex :: ts => .node i t p c pid ch ex :: (allNodesF ch ++ allNodesF ts)

/-- The space key in `handleNormalMode` (main.go) flips
`task.IsExpanded` on the selected node and rebuilds the flat view.
The selected pointer is modelled by its id: the node carrying that id
is flipped in place (children untouched), every other node is left as
it is.  Under `uniqueIds` this is exactly the source's single-pointer
flip. -/
def toggleF : List Task → Int → List Task
  | [], _ => []
  | .node i t p c pid ch ex :: ts, tid =>
    (if i = tid then Task.node i t p c pid ch (!ex)
     else Task.node i t p c pid (toggleF ch tid) ex) :: toggleF ts tid

/-- No two nodes of the forest share an id (true of every forest the
program builds, since `id` is the store's primary key). -/
def uniqueIds (F : List Task) : Prop :=
  ((allNodesF F).map Task.id).Nodup

/-! ## Cursor movement and scrolling

The cursor operations below are the bodies of the corresponding cases
of `handleNormalMode`, `scrollHalfPageDown`, `scrollHalfPageUp` and
`rebuildFlatView` (main.go), each as a function from the flat-view
length and the current index to the new index.  `adjustScroll` never
touches `currentIndex`, so it is omitted from the cursor model. -/

/-- The clamp at the end of `rebuildFlatView`:
`if currentIndex >= len { currentIndex = len - 1 }; if currentIndex < 0 { currentIndex = 0 }`. -/
def rebuildClamp (len ci : Int) : Int :=
  if (if len ≤ ci then len - 1 else ci) < 0 then 0
  else (if len ≤ ci then len - 1 else ci)

/-- Case `'j'` of `handleNormalMode`: move down one row when not on
the last row. -/
def moveDown (len ci : Int) : Int :=
  if ci < len - 1 then ci + 1 else ci

/-- Case `'k'` of `handleNormalMode`: move up one row when not on the
first row. -/
def moveUp (ci : Int) : Int :=
  if 0 < ci then ci - 1 else ci

/-- Case `'g'` of `handleNormalMode`: jump to the first row. -/
def jumpFirst : Int := 0

/-- Case `'G'` of `handleNormalMode`: `currentIndex = len(flatView) - 1`,
with no emptiness guard. -/
def jumpLast (len : Int) : Int :=
  len - 1

/-- `scrollHalfPageDown` (main.go): add the half page, then clamp only
against the end of the list. -/
def halfPageDown (len ci half : Int) : Int :=
  if len ≤ ci + half then len - 1 else ci + half

/-- `scrollHalfPageUp` (main.go): subtract the half page, then clamp
only against the beginning. -/
def halfPageUp (ci half : Int) : Int :=
  if ci - half < 0 then 0 else ci - half

/-- The invariant claimed for the selection cursor: a valid index when
the flat view is non-empty, pinned to `0` when it is empty. -/
def cursorInv (len ci : Int) : Prop :=
  (len = 0 → ci = 0) ∧ (0 < len → 0 ≤ ci ∧ ci < len)

instance (len ci : Int) : Decidable (cursorInv len ci) := by
  unfold cursorInv
  infer_instance

/-- `adjustScroll` (main.go).  `height` is the terminal height; the
window is `maxVisibleTasks = height - 4`.  When the window is not
positive the function returns the offset unchanged; otherwise it
reveals the current row (scrolling up or down), then clamps the offset
against the end and the beginning of the list. -/
def adjustScroll (height len ci so : Int) : Int :=
  if height - 4 ≤ 0 then so
  else
    let so1 := if ci < so then ci
      else if so + (height - 4) ≤ ci then ci - (height - 4) + 1
      else so
    let so2 := if len - (height - 4) < so1 then len - (height - 4) else so1
    if so2 < 0 then 0 else so2

/-! ## String helpers used by the input handlers -/

/-- One decimal digit, or `none`. -/
def digitVal (c : Char) : Option Nat :=
  if '0' ≤ c ∧ c ≤ '9' then some (c.toNat - '0'.toNat) else none

/-- Accumulates decimal digits; fails on the first non-digit. -/
def parseDigitsAux (acc : Nat) : List Char → Option Nat
  | [] => some acc
  | c :: cs =>
    match digitVal c with
    | some d => parseDigitsAux (acc * 10 + d) cs
    | none => none

/-- A non-empty all-digit string's value, or `none`. -/
def parseDigits : List Char → Option Nat
  | [] => none
  | c :: cs => parseDigitsAux 0 (c :: cs)

/-- `strconv.Atoi`: an optional sign followed by at least one decimal
digit, rejecting anything else; values outside the 64-bit `int` range
make `Atoi` return an error (`ErrRange`), modelled as `none`. -/
def atoi (s : String) : Option Int :=
  let signed : Bool × List Char :=
    match s.data with
    | '-' :: t => (true, t)
    | '+' :: t => (false, t)
    | t => (false, t)
  match parseDigits signed.2 with
  | none => none
  | some n =>
    let v : Int := if signed.1 then -(n : Int) else (n : Int)
    if v < -(2 ^ 63) ∨ 2 ^ 63 - 1 < v then none else some v

/-- `strings.TrimSpace`, modelled over the ASCII whitespace the inputs
here can contain: drop leading and trailing whitespace characters. -/
def trimSpace (s : String) : String :=
  String.mk (((s.data.dropWhile Char.isWhitespace).reverse.dropWhile Char.isWhitespace).reverse)

/-- Splits a character list at the first colon: the part before it and
the part after it, or `none` when there is no colon. -/
def breakAtColon : List Char → Option (List Char × List Char)
  | [] => none
  | c :: cs =>
    if c = ':' then some ([], cs)
    else
      match breakAtColon cs with
      | none => none
      | some (a, b) => some (c :: a, b)

/-- `strings.SplitN(s, ":", 2)`: the whole string when it has no
colon, otherwise the part before the first colon and everything after
it. -/
def splitN2 (s : String) : List String :=
  match breakAtColon s.data with
  | none => [s]
  | some (a, b) => [String.mk a, String.mk b]

/-! ## The modal input handlers -/

/-- A key event as classified by the handlers: escape, enter,
backspace, the space key, or a printable character (`ev.Ch ≠ 0`). -/
inductive Key : Type where
  | esc : Key
  | enter : Key
  | backspace : Key
  | space : Key
  | ch (c : Char) : Key

/-- A store command emitted by a handler (the SQL the corresponding
`TaskManager` method would execute). -/
inductive Cmd : Type where
  | add (title : String) (priority : Int) (parentId : Option Int) : Cmd
  | update (id : Int) (title : String) (priority : Int) : Cmd

/-- The `TaskManager` fields the input handlers read and write. -/
structure TMState where
  flatView : List Task
  currentIndex : Int
  editMode : Bool
  editBuffer : String
  statusMsg : String
  inputMode : String
  inputStep : Int
  inputTitle : String
  inputPriority : String

/-- The selected task `tm.flatView[tm.currentIndex]`.  The handlers
only index after checking `len(flatView) > 0 && currentIndex <
len(flatView)`; Go would panic on a negative index, which the `getD`
renders total. -/
def selectedTask (s : TMState) : Task :=
  s.flatView.getD s.currentIndex.toNat default

/-- Drops the last character of a buffer (`buf[:len(buf)-1]`). -/
def dropLast1 (s : String) : String :=
  String.mk s.data.dropLast

/-- The sequential clamp used by `handleEditMode`:
`if priority < 1 { priority = 1 }; if priority > 100 { priority = 100 }`. -/
def clampP (p : Int) : Int :=
  if (if p < 1 then 1 else p) > 100 then 100 else (if p < 1 then 1 else p)

/-- The priority computed on the final confirm of `handleInputMode`
(main.go): `priority := 50`, replaced by the parsed value only when
`Atoi` succeeds and the value lies in `[1,100]`. -/
def creationPriority (s : TMState) : Int :=
  if s.inputPriority ≠ "" then
    match atoi s.inputPriority with
    | some p => if 1 ≤ p ∧ p ≤ 100 then p else 50
    | none => 50
  else 50

/-- The parent id attached on the final confirm of `handleInputMode`
(main.go): the selected task's id in the `addsubtask` variant with a
valid selection, otherwise none. -/
def addParentId (s : TMState) : Option Int :=
  if s.inputMode = "addsubtask" ∧ 0 < s.flatView.length ∧
      s.currentIndex < (s.flatView.length : Int) then
    some (selectedTask s).id
  else none

/-- `handleInputMode` (main.go): the two-step creation flow.  Returns
the new state and the store command emitted, if any.  `addTask`'s own
status message and the subsequent reload are the command executor's
business and are not part of the handler model. -/
def handleInputMode (s : TMState) (k : Key) : TMState × Option Cmd :=
  match k with
  | .esc =>
    ({ s with inputMode := "", inputStep := 0, inputTitle := "", inputPriority := "" }, none)
  | .enter =>
    if s.inputStep = 0 then
      if s.inputTitle = "" then
        ({ s with statusMsg := "Task title cannot be empty" }, none)
      else
        ({ s with inputStep := 1 }, none)
    else
      ({ s with inputMode := "", inputStep := 0, inputTitle := "", inputPriority := "" },
        some (.add s.inputTitle (creationPriority s) (addParentId s)))
  | .backspace =>
    if s.inputStep = 0 then ({ s with inputTitle := dropLast1 s.inputTitle }, none)
    else ({ s with inputPriority := dropLast1 s.inputPriority }, none)
  | .space =>
    if s.inputStep = 0 then ({ s with inputTitle := s.inputTitle ++ " " }, none)
    else ({ s with inputPriority := s.inputPriority ++ " " }, none)
  | .ch c =>
    if s.inputStep = 0 then ({ s with inputTitle := s.inputTitle.push c }, none)
    else ({ s with inputPriority := s.inputPriority.push c }, none)

/-- The priority written by `handleEditMode`'s confirm (main.go): the
trimmed part after the colon parsed with `Atoi`, the selected task's
current priority when parsing fails, then clamped to `[1,100]`. -/
def editCmdPriority (s : TMState) (b : String) : Int :=
  clampP
    (match atoi (trimSpace b) with
     | some p => p
     | none => (selectedTask s).priority)

/-- `handleEditMode` (main.go): the single-buffer edit flow.  On
enter, when the selection is valid, the buffer is split once on the
first colon; exactly two parts yield an update command (trimmed title;
trimmed priority parsed with `Atoi`, falling back to the task's
current priority on a parse error, then clamped to `[1,100]`), any
other shape yields nothing; edit mode always ends.  The space key
matches no case of the Go switch (its `ev.Ch` is `0`), so it leaves
the state unchanged. -/
def handleEditMode (s : TMState) (k : Key) : TMState × Option Cmd :=
  match k with
  | .esc => ({ s with editMode := false, editBuffer := "" }, none)
  | .enter =>
    let cmd : Option Cmd :=
      if 0 < s.flatView.length ∧ s.currentIndex < (s.flatView.length : Int) then
        match splitN2 s.editBuffer with
        | [a, b] => some (.update (selectedTask s).id (trimSpace a) (editCmdPriority s b))
        | _ => none
      else none
    ({ s with editMode := false, editBuffer := "" }, cmd)
  | .backspace => ({ s with editBuffer := dropLast1 s.editBuffer }, none)
  | .space => (s, none)
  | .ch c => ({ s with editBuffer := s.editBuffer.push c }, none)

/-- The number of transitive descendants of a task: every node of its
children forest. -/
def descendantCount (t : Task) : Nat :=
  (allNodesF t.children).length

/-! ## Concrete fixtures used by counterexamples and witnesses -/

/-- A root record, id 1. -/
def rA : TaskRec := ⟨1, "a", 50, 0, none⟩

/-- A child of `rA`, id 2. -/
def rB : TaskRec := ⟨2, "b", 50, 1, some 1⟩

/-- A child of `rB` (grandchild of `rA`), id 3. -/
def rC : TaskRec := ⟨3, "c", 50, 2, some 2⟩

/-- A three-level chain in the store: 1 ← 2 ← 3. -/
def exStore3 : List TaskRec :=
  [rA, rB, rC]

/-- A root record for the orphan example. -/
def oRoot : TaskRec := ⟨1, "root", 50, 0, none⟩

/-- An orphaned record: its parent id 99 names no record. -/
def oOrphan : TaskRec := ⟨2, "orphan", 50, 1, some 99⟩

/-- A record set containing one root and one orphan. -/
def exRecs2 : List TaskRec :=
  [oRoot, oOrphan]

/-- Leaf node, id 3, child of node 2. -/
def exC4c : Task := .node 3 "c" 50 2 (some 2) [] true

/-- Collapsed node, id 2, child of node 1, hiding node 3. -/
def exC4b : Task := .node 2 "b" 50 1 (some 1) [exC4c] false

/-- Expanded root, id 1, with the collapsed child 2. -/
def exC4a : Task := .node 1 "a" 50 0 none [exC4b] true

/-- A forest whose root is expanded but whose middle node is
collapsed: the root has 2 transitive descendants but only 1 visible
one. -/
def exForest4 : List Task :=
  [exC4a]

/-- A task sitting in the flat view of the edit-mode fixtures. -/
def tEdit : Task := .node 7 "Old" 42 0 none [] true

/-- Creation mode at the title step with an empty title buffer. -/
def wsC7 : TMState :=
  { flatView := [], currentIndex := 0, editMode := false, editBuffer := "",
    statusMsg := "", inputMode := "add", inputStep := 0, inputTitle := "",
    inputPriority := "" }

/-- Creation mode at the priority step with an unparseable priority
buffer. -/
def wsC8a : TMState :=
  { flatView := [], currentIndex := 0, editMode := false, editBuffer := "",
    statusMsg := "", inputMode := "add", inputStep := 1, inputTitle := "Buy milk",
    inputPriority := "abc" }

/-- Edit mode whose buffer has an unparseable priority part. -/
def wsC8b : TMState :=
  { flatView := [tEdit], currentIndex := 0, editMode := true, editBuffer := "New:xx",
    statusMsg := "", inputMode := "", inputStep := 0, inputTitle := "",
    inputPriority := "" }

/-- Edit mode whose buffer contains no colon. -/
def wsC9 : TMState :=
  { flatView := [tEdit], currentIndex := 0, editMode := true, editBuffer := "nocolon",
    statusMsg := "", inputMode := "", inputStep := 0, inputTitle := "",
    inputPriority := "" }

/-- Edit mode whose buffer's part before the colon is empty. -/
def wsC10 : TMState :=
  { flatView := [tEdit], currentIndex := 0, editMode := true, editBuffer := ":30",
    statusMsg := "", inputMode := "", inputStep := 0, inputTitle := "",
    inputPriority := "" }

/-- The empty string, named so applications need no string literal. -/
def strEmpty : String := ""

/-- The string after the colon of `wsC10`'s buffer. -/
def str30 : String := "30"

/-- The string before the colon of `wsC8b`'s buffer. -/
def strNew : String := "New"

/-- The string after the colon of `wsC8b`'s buffer. -/
def strXX : String := "xx"

/-- A one-record store matching `tEdit`, for exercising `updateTask`. -/
def store1 : List TaskRec :=
  [⟨7, "Old", 42, 0, none⟩]

/-- The record of `store1` after the `wsC10` edit is applied. -/
def recUpdated : TaskRec := ⟨7, "", 30, 0, none⟩

/-! ## General lemmas about the embedded definitions -/

theorem buildFlatView_eq_specFlatten (F : List Task) : ∀ d, buildFlatView F d = specFlatten F := by
  induction F using allNodesF.induct with
  | case1 => intro d; simp [buildFlatView, specFlatten]
  | case2 i t p c pid ch ex ts ih1 ih2 =>
    intro d
    simp only [buildFlatView, specFlatten, ih1, ih2]
    by_cases hex : ex
    · by_cases hch : ch.isEmpty
      · have h0 : ch = [] := List.isEmpty_iff.mp hch
        subst h0
        simp [hex, specFlatten]
      · simp [hex, hch]
    · simp [hex]

theorem allNodesF_singleton (i : Int) (t : String) (p c : Int) (pid : Option Int)
    (ch : List Task) (ex : Bool) :
    allNodesF [Task.node i t p c pid ch ex] = Task.node i t p c pid ch ex :: allNodesF ch := by
  simp [allNodesF]

theorem mem_allNodesF {t : Task} {F : List Task} :
    t ∈ allNodesF F ↔ ∃ tr ∈ F, t ∈ allNodesF [tr] := by
  induction F using allNodesF.induct with
  | case1 => simp [allNodesF]
  | case2 i ti p c pid ch ex ts ih1 ih2 =>
    simp only [allNodesF, List.mem_cons, List.mem_append]
    constructor
    · rintro (rfl | h | h)
      · exact ⟨_, Or.inl rfl, by simp [allNodesF_singleton]⟩
      · exact ⟨_, Or.inl rfl, by simp [allNodesF_singleton, List.mem_cons]; right; exact h⟩
      · obtain ⟨tr, htr, hm⟩ := ih2.mp h
        exact ⟨tr, Or.inr htr, hm⟩
    · rintro ⟨tr, (rfl | htr), hm⟩
      · rw [allNodesF_singleton] at hm
        rcases List.mem_cons.mp hm with rfl | hm
        · exact Or.inl rfl
        · exact Or.inr (Or.inl hm)
      · exact Or.inr (Or.inr (ih2.mpr ⟨tr, htr, hm⟩))

theorem sortTasks_perm (l : List Task) : List.Perm (sortTasks l) l :=
  List.perm_insertionSort taskLEP l

theorem sortTasks_sorted (l : List Task) : (sortTasks l).Pairwise taskLEP :=
  List.sorted_insertionSort taskLEP l

theorem breakAtColon_eq_none {l : List Char} (h : ':' ∉ l) : breakAtColon l = none := by
  induction l with
  | nil => rfl
  | cons c cs ih =>
    have hc : ¬ c = ':' := fun e => h (e ▸ List.mem_cons_self c cs)
    have hcs : ':' ∉ cs := fun hm => h (List.mem_cons_of_mem _ hm)
    simp [breakAtColon, hc, ih hcs]

theorem splitN2_no_colon {s : String} (h : ':' ∉ s.data) : splitN2 s = [s] := by
  simp [splitN2, breakAtColon_eq_none h]

/-! ## The claims -/

/-- C1: the claim states that `delete` removes the record and, to any
depth, every transitive descendant.  The code removes only the task
and its direct children (`DELETE ... WHERE id = ? OR parent_id = ?`;
the schema's declared `ON DELETE CASCADE` is never enabled): deleting
task 1 of the chain 1 ← 2 ← 3 leaves the grandchild record 3 in the
store. -/
theorem C1_delete_keeps_grandchild :
    deleteTask exStore3 1 = [rC] ∧
    rB ∈ exStore3 ∧ rB.parentId = some rA.id ∧ rC.parentId = some rB.id ∧
    rC ∈ deleteTask exStore3 1 := by
  decide

/-- C6: after `adjustScroll`, whenever the window height
`height - 4` is at least 1 and at most the flat-view length and the
current index is valid, the current row lies inside the window and
the offset lies between 0 and `max 0 (length - window)`. -/
theorem C6_adjustScroll_invariant (height len ci so : Int)
    (hw : 1 ≤ height - 4) (hwl : height - 4 ≤ len) (hci0 : 0 ≤ ci) (hci : ci < len) :
    adjustScroll height len ci so ≤ ci ∧
    ci < adjustScroll height len ci so + (height - 4) ∧
    0 ≤ adjustScroll height len ci so ∧
    adjustScroll height len ci so ≤ max 0 (len - (height - 4)) := by
  simp only [adjustScroll]
  split_ifs <;> omega

theorem C6_witness :
    adjustScroll 6 5 2 4 ≤ 2 ∧
    2 < adjustScroll 6 5 2 4 + (6 - 4) ∧
    0 ≤ adjustScroll 6 5 2 4 ∧
    adjustScroll 6 5 2 4 ≤ max 0 (5 - (6 - 4)) :=
  C6_adjustScroll_invariant 6 5 2 4 (by decide) (by decide) (by decide) (by decide)

/-- C7: at the title step, confirm with an empty title buffer only
sets the status message (step and mode unchanged, no command); with a
non-empty title it advances to the priority step, again without a
command. -/
theorem C7_empty_title_blocks (s : TMState) (h0 : s.inputStep = 0) :
    (s.inputTitle = "" →
      handleInputMode s .enter =
        ({ s with statusMsg := "Task title cannot be empty" }, none)) ∧
    (s.inputTitle ≠ "" →
      handleInputMode s .enter = ({ s with inputStep := 1 }, none)) := by
  constructor <;> intro ht <;> simp [handleInputMode, h0, ht]

theorem C7_witness :
    handleInputMode wsC7 .enter =
      ({ wsC7 with statusMsg := "Task title cannot be empty" }, none) :=
  (C7_empty_title_blocks wsC7 rfl).1 rfl

/-- C9: confirming an edit buffer that contains no colon (so the
split yields a single part) issues no command and leaves the state
untouched apart from leaving edit mode and clearing the buffer. -/
theorem C9_no_colon_discards (s : TMState) (h : ':' ∉ s.editBuffer.data) :
    handleEditMode s .enter = ({ s with editMode := false, editBuffer := "" }, none) := by
  simp only [handleEditMode, splitN2_no_colon h]
  split_ifs <;> rfl

theorem C9_witness :
    handleEditMode wsC9 .enter = ({ wsC9 with editMode := false, editBuffer := "" }, none) :=
  C9_no_colon_discards wsC9 (by decide)

/-- C8: unparseable priority input is a silent fallback, never an
error.  Creation confirm with an empty, non-integer, or out-of-range
priority buffer emits an add command with priority 50; edit confirm
whose part after the colon does not parse emits an update command
reusing the selected task's current priority, clamped to `[1,100]`. -/
theorem C8_priority_fallback :
    (∀ s : TMState, s.inputStep ≠ 0 →
      (s.inputPriority = "" ∨ atoi s.inputPriority = none ∨
        (∃ p, atoi s.inputPriority = some p ∧ (p < 1 ∨ 100 < p))) →
      (handleInputMode s .enter).2 = some (.add s.inputTitle 50 (addParentId s))) ∧
    (∀ (s : TMState) (a b : String), 0 < s.flatView.length →
      s.currentIndex < (s.flatView.length : Int) →
      splitN2 s.editBuffer = [a, b] → atoi (trimSpace b) = none →
      (handleEditMode s .enter).2 =
        some (.update (selectedTask s).id (trimSpace a) (clampP (selectedTask s).priority))) := by
  constructor
  · intro s h0 hcase
    have hp : creationPriority s = 50 := by
      unfold creationPriority
      rcases hcase with h | h | ⟨p, hpv, hrange⟩
      · simp [h]
      · simp [h]
      · have hout : ¬ (1 ≤ p ∧ p ≤ 100) := by omega
        simp [hpv, hout]
    simp [handleInputMode, h0, hp]
  · intro s a b hg1 hg2 hsplit hatoi
    have hpr : editCmdPriority s b = clampP (selectedTask s).priority := by
      unfold editCmdPriority
      rw [hatoi]
    simp [handleEditMode, hsplit, hg1, hg2, hpr]

theorem C8_witness :
    (handleInputMode wsC8a .enter).2 = some (.add wsC8a.inputTitle 50 (addParentId wsC8a)) ∧
    (handleEditMode wsC8b .enter).2 =
      some (.update (selectedTask wsC8b).id (trimSpace strNew)
        (clampP (selectedTask wsC8b).priority)) :=
  ⟨C8_priority_fallback.1 wsC8a (by decide) (Or.inr (Or.inl (by decide))),
   C8_priority_fallback.2 wsC8b strNew strXX (by decide) (by decide) (by decide) (by decide)⟩

/-- C10: the edit flow performs no non-empty-title check: whenever
the part of the buffer before the first colon trims to the empty
string, confirm emits an update command whose title is that empty
string, and applying it to any store stores an empty title on the
selected task's record. -/
theorem C10_edit_empty_title (s : TMState) (a b : String)
    (hg1 : 0 < s.flatView.length) (hg2 : s.currentIndex < (s.flatView.length : Int))
    (hsplit : splitN2 s.editBuffer = [a, b]) (hta : trimSpace a = "") :
    (handleEditMode s .enter).2 =
      some (.update (selectedTask s).id (trimSpace a) (editCmdPriority s b)) ∧
    ∀ (store : List TaskRec) (r : TaskRec),
      r ∈ updateTask store (selectedTask s).id (trimSpace a) (editCmdPriority s b) →
      r.id = (selectedTask s).id → r.title = "" := by
  constructor
  · simp [handleEditMode, hsplit, hg1, hg2]
  · intro store r hr hid
    simp only [updateTask, List.mem_map] at hr
    obtain ⟨r0, hr0, heq⟩ := hr
    by_cases h : r0.id = (selectedTask s).id
    · rw [if_pos h] at heq
      rw [← heq]
      exact hta
    · rw [if_neg h] at heq
      rw [← heq] at hid
      exact absurd hid h

theorem C10_witness :
    (handleEditMode wsC10 .enter).2 =
      some (.update (selectedTask wsC10).id (trimSpace strEmpty)
        (editCmdPriority wsC10 str30)) ∧
    recUpdated.title = "" :=
  ⟨(C10_edit_empty_title wsC10 strEmpty str30 (by decide) (by decide) (by decide)
      (by decide)).1,
   (C10_edit_empty_title wsC10 strEmpty str30 (by decide) (by decide) (by decide)
      (by decide)).2 store1 recUpdated (by decide) (by decide)⟩

/-- C3 counterexample: from a state satisfying the claimed cursor
invariant with an empty flat view, jump-to-last (`'G'`) sets
`currentIndex` to `-1`, not `0`, so the claimed invariant fails. -/
theorem C3_counterexample :
    cursorInv 0 0 ∧ jumpLast 0 = -1 ∧ ¬ cursorInv 0 (jumpLast 0) := by
  decide

/-- C3 (amended): the cursor invariant holds after the
`rebuildFlatView` clamp from any prior cursor, and is preserved by
move-down, move-up and jump-to-first; jump-to-last establishes it only
when the flat view is non-empty (on an empty view it sets the cursor
to `-1`); half-page-up preserves it when the half-page size is
non-negative, and half-page-down additionally requires a non-empty
flat view. -/
theorem C3_cursor_invariant (len ci half : Int) (hlen : 0 ≤ len) (h : cursorInv len ci) :
    (∀ ci2 : Int, cursorInv len (rebuildClamp len ci2)) ∧
    cursorInv len (moveDown len ci) ∧
    cursorInv len (moveUp ci) ∧
    cursorInv len jumpFirst ∧
    (0 < len → cursorInv len (jumpLast len)) ∧
    (0 ≤ half → cursorInv len (halfPageUp ci half)) ∧
    (0 ≤ half → 0 < len → cursorInv len (halfPageDown len ci half)) := by
  obtain ⟨h1, h2⟩ := h
  refine ⟨fun ci2 => ?_, ?_, ?_, ?_, fun hl => ?_, fun hh => ?_, fun hh hl => ?_⟩
  · unfold cursorInv rebuildClamp
    split_ifs <;> omega
  · unfold cursorInv moveDown
    split_ifs <;> omega
  · unfold cursorInv moveUp
    split_ifs <;> omega
  · unfold cursorInv jumpFirst
    omega
  · unfold cursorInv jumpLast
    omega
  · unfold cursorInv halfPageUp
    split_ifs <;> omega
  · unfold cursorInv halfPageDown
    split_ifs <;> omega

theorem C3_witness : cursorInv 3 (moveDown 3 1) :=
  (C3_cursor_invariant 3 1 1 (by decide) (by decide)).2.1

/-- Every node of a tree built by `buildTree` takes its id and parent
id from some loaded record, and that record either is the record the
tree was built from or has a parent id naming a loaded record. -/
theorem buildTree_nodes_aux (recs : List TaskRec) :
    ∀ (fuel : Nat) (s : TaskRec), s ∈ recs →
    ∀ t ∈ allNodesF [buildTree recs fuel s],
    ∃ u ∈ recs, t.id = u.id ∧ t.parentId = u.parentId ∧
      (u = s ∨ ∃ q ∈ recs, u.parentId = some q.id) := by
  intro fuel
  induction fuel with
  | zero =>
    intro s hs t ht
    simp only [buildTree, allNodesF_singleton, allNodesF, List.mem_cons, List.not_mem_nil,
      or_false] at ht
    subst ht
    exact ⟨s, hs, rfl, rfl, Or.inl rfl⟩
  | succ fuel ih =>
    intro s hs t ht
    simp only [buildTree, allNodesF_singleton] at ht
    rcases List.mem_cons.mp ht with rfl | hmem
    · exact ⟨s, hs, rfl, rfl, Or.inl rfl⟩
    · rw [mem_allNodesF] at hmem
      obtain ⟨tr, htr, htmem⟩ := hmem
      rw [(sortTasks_perm _).mem_iff] at htr
      obtain ⟨c, hc, rfl⟩ := List.mem_map.mp htr
      have hc2 := List.mem_filter.mp hc
      have hcp : c.parentId = some s.id := of_decide_eq_true hc2.2
      obtain ⟨u, hu, h1, h2, h3⟩ := ih c hc2.1 t htmem
      refine ⟨u, hu, h1, h2, ?_⟩
      rcases h3 with rfl | h3
      · exact Or.inr ⟨s, hs, hcp⟩
      · exact Or.inr h3

/-- C2 counterexample: in the record set with root 1 and a record 2
whose parent id 99 names no record, the built forest contains no root
(indeed no node at all) with id 2 — the orphan is not placed in the
forest as a root task. -/
theorem C2_counterexample :
    oOrphan ∈ exRecs2 ∧ oOrphan.parentId = some 99 ∧
    (99 : Int) ∉ exRecs2.map TaskRec.id ∧
    (2 : Int) ∉ (loadTasks exRecs2).map Task.id := by
  decide

/-- C2 (amended): a record whose parent id names no record in the set
is omitted from the built forest entirely — no node anywhere in the
forest carries its id — rather than being kept as a root. -/
theorem C2_orphans_dropped (recs : List TaskRec) (hN : (recs.map TaskRec.id).Nodup)
    (o : TaskRec) (ho : o ∈ recs) (p : Int) (hp : o.parentId = some p)
    (hnp : p ∉ recs.map TaskRec.id) :
    o.id ∉ (allNodesF (loadTasks recs)).map Task.id := by
  intro hmem
  obtain ⟨t, ht, hid⟩ := List.mem_map.mp hmem
  unfold loadTasks at ht
  rw [mem_allNodesF] at ht
  obtain ⟨tr, htr, htmem⟩ := ht
  rw [(sortTasks_perm _).mem_iff] at htr
  obtain ⟨r, hr, rfl⟩ := List.mem_map.mp htr
  have hr2 := List.mem_filter.mp hr
  have hrn : r.parentId = none := of_decide_eq_true hr2.2
  obtain ⟨u, hu, h1, h2, h3⟩ := buildTree_nodes_aux recs recs.length r hr2.1 t htmem
  have huo : u = o := List.inj_on_of_nodup_map hN hu ho (by rw [← h1]; exact hid)
  subst huo
  rcases h3 with rfl | ⟨q, hq, hqid⟩
  · rw [hp] at hrn
    exact Option.noConfusion hrn
  · rw [hp] at hqid
    have hpq : p = q.id := Option.some.inj hqid
    exact hnp (hpq ▸ List.mem_map_of_mem TaskRec.id hq)

theorem C2_witness : oOrphan.id ∉ (allNodesF (loadTasks exRecs2)).map Task.id :=
  C2_orphans_dropped exRecs2 (by decide) oOrphan (by decide) 99 (by decide) (by decide)

/-- Every node of a built tree has a sorted children list. -/
theorem buildTree_children_sorted (recs : List TaskRec) :
    ∀ (fuel : Nat) (r : TaskRec), ∀ t ∈ allNodesF [buildTree recs fuel r],
      t.children.Pairwise taskLEP := by
  intro fuel
  induction fuel with
  | zero =>
    intro r t ht
    simp only [buildTree, allNodesF_singleton, allNodesF, List.mem_cons, List.not_mem_nil,
      or_false] at ht
    subst ht
    simp [Task.children]
  | succ fuel ih =>
    intro r t ht
    simp only [buildTree, allNodesF_singleton] at ht
    rcases List.mem_cons.mp ht with rfl | hmem
    · exact sortTasks_sorted _
    · rw [mem_allNodesF] at hmem
      obtain ⟨tr, htr, htmem⟩ := hmem
      rw [(sortTasks_perm _).mem_iff] at htr
      obtain ⟨c, hc, rfl⟩ := List.mem_map.mp htr
      exact ih c t htmem

/-- C5: the builder's root list and every node's children list are
sorted by priority descending with creation time ascending as
tie-break, and the flat view of any forest is exactly its pre-order
depth-first traversal in which the subtree below a non-expanded node
is skipped while the node itself remains. -/
theorem C5_sorted_preorder (recs : List TaskRec) :
    (loadTasks recs).Pairwise taskLEP ∧
    (∀ t ∈ allNodesF (loadTasks recs), t.children.Pairwise taskLEP) ∧
    (∀ F : List Task, flatViewOf F = specFlatten F) := by
  refine ⟨?_, ?_, fun F => buildFlatView_eq_specFlatten F 0⟩
  · unfold loadTasks
    exact sortTasks_sorted _
  · intro t ht
    unfold loadTasks at ht
    rw [mem_allNodesF] at ht
    obtain ⟨tr, htr, htmem⟩ := ht
    rw [(sortTasks_perm _).mem_iff] at htr
    obtain ⟨r, hr, rfl⟩ := List.mem_map.mp htr
    exact buildTree_children_sorted recs recs.length r t htmem

theorem C5_witness : flatViewOf exForest4 = specFlatten exForest4 :=
  (C5_sorted_preorder exRecs2).2.2 exForest4

theorem toggleF_noop (F : List Task) (tid : Int) :
    tid ∉ (allNodesF F).map Task.id → toggleF F tid = F := by
  induction F using allNodesF.induct with
  | case1 => intro h; simp [toggleF]
  | case2 i t p c pid ch ex ts ih1 ih2 =>
    intro h
    simp only [allNodesF, List.map_cons, List.map_append, List.mem_cons, List.mem_append,
      not_or, Task.id] at h
    obtain ⟨hi, hch, hts⟩ := h
    simp only [toggleF]
    rw [if_neg (fun e => hi e.symm), ih1 hch, ih2 hts]

theorem toggleF_involution (F : List Task) (tid : Int) :
    toggleF (toggleF F tid) tid = F := by
  induction F using allNodesF.induct with
  | case1 => simp [toggleF]
  | case2 i t p c pid ch ex ts ih1 ih2 =>
    simp only [toggleF]
    by_cases hi : i = tid
    · simp only [if_pos hi, toggleF, Bool.not_not, ih2]
    · simp only [if_neg hi, toggleF, ih1, ih2]

theorem mem_allNodesF_of_mem_specFlatten (F : List Task) (t : Task) :
    t ∈ specFlatten F → t ∈ allNodesF F := by
  induction F using allNodesF.induct with
  | case1 => intro h; simp [specFlatten] at h
  | case2 i ti p c pid ch ex ts ih1 ih2 =>
    intro h
    simp only [specFlatten, List.mem_cons, List.mem_append] at h
    simp only [allNodesF, List.mem_cons, List.mem_append]
    rcases h with rfl | h | h
    · exact Or.inl rfl
    · by_cases hex : ex
      · rw [if_pos hex] at h
        exact Or.inr (Or.inl (ih1 h))
      · rw [if_neg hex] at h
        exact absurd h (List.not_mem_nil t)
    · exact Or.inr (Or.inr (ih2 h))

theorem uniqueIds_cons {i : Int} {ti : String} {p c : Int} {pid : Option Int}
    {ch ts : List Task} {ex : Bool}
    (h : uniqueIds (Task.node i ti p c pid ch ex :: ts)) :
    i ∉ (allNodesF ch).map Task.id ∧ i ∉ (allNodesF ts).map Task.id ∧
    uniqueIds ch ∧ uniqueIds ts ∧
    ∀ x ∈ (allNodesF ch).map Task.id, x ∉ (allNodesF ts).map Task.id := by
  unfold uniqueIds at h ⊢
  simp only [allNodesF, List.map_cons, List.map_append, List.nodup_cons, List.nodup_append,
    List.mem_append, not_or, Task.id] at h
  obtain ⟨⟨h1, h2⟩, h3, h4, h5⟩ := h
  exact ⟨h1, h2, h3, h4, fun x hx => h5 hx⟩

theorem specFlatten_toggle_length (F : List Task) (t : Task) :
    uniqueIds F → t ∈ specFlatten F → t.isExpanded = true →
    (specFlatten (toggleF F t.id)).length + (specFlatten t.children).length
      = (specFlatten F).length := by
  induction F using allNodesF.induct with
  | case1 =>
    intro _ hmem _
    simp [specFlatten] at hmem
  | case2 i ti p c pid ch ex ts ih1 ih2 =>
    intro hU hmem hex
    obtain ⟨hich, hits, hUch, hUts, hdisj⟩ := uniqueIds_cons hU
    simp only [specFlatten, List.mem_cons, List.mem_append] at hmem
    rcases hmem with rfl | hmem | hmem
    · have hexb : ex = true := hex
      subst hexb
      have hnoop := toggleF_noop ts i hits
      simp only [Task.id, Task.children]
      simp only [toggleF, hnoop]
      simp only [if_true]
      simp only [specFlatten, Bool.not_true, Bool.false_eq_true, if_false,
        eq_self_iff_true, if_true, List.nil_append, List.length_cons, List.length_append]
      omega
    · by_cases hexb : ex
      · rw [if_pos hexb] at hmem
        have htch : t ∈ allNodesF ch := mem_allNodesF_of_mem_specFlatten ch t hmem
        have htid : t.id ∈ (allNodesF ch).map Task.id := List.mem_map_of_mem Task.id htch
        have hne : ¬ i = t.id := fun e => hich (by rw [e]; exact htid)
        have hnots : t.id ∉ (allNodesF ts).map Task.id := fun h2 => hdisj _ htid h2
        have hnoop := toggleF_noop ts t.id hnots
        have hlen := ih1 hUch hmem hex
        simp only [toggleF, hnoop]
        rw [if_neg hne]
        simp only [specFlatten, hexb, if_true, List.length_cons, List.length_append]
        omega
      · rw [if_neg hexb] at hmem
        exact absurd hmem (List.not_mem_nil t)
    · have htts : t ∈ allNodesF ts := mem_allNodesF_of_mem_specFlatten ts t hmem
      have htid : t.id ∈ (allNodesF ts).map Task.id := List.mem_map_of_mem Task.id htts
      have hne : ¬ i = t.id := fun e => hits (by rw [e]; exact htid)
      have hnotch : t.id ∉ (allNodesF ch).map Task.id := fun h2 => hdisj _ h2 htid
      have hnoop := toggleF_noop ch t.id hnotch
      have hlen := ih2 hUts hmem hex
      simp only [toggleF, hnoop]
      rw [if_neg hne]
      by_cases hexb : ex
      · simp only [specFlatten, hexb, if_true, List.length_cons, List.length_append]
        omega
      · simp only [specFlatten, hexb, if_false, List.nil_append, List.length_cons,
          List.length_append]
        omega

/-- C4 counterexample: in the forest whose expanded root 1 owns the
collapsed node 2 which owns node 3, the root is in the flat view with
a child, collapsing it removes 1 entry while its transitive descendant
count is 2 — the flat view does not shrink by the number of transitive
descendants. -/
theorem C4_counterexample :
    exC4a ∈ flatViewOf exForest4 ∧ exC4a.isExpanded = true ∧ exC4a.children ≠ [] ∧
    descendantCount exC4a = 2 ∧
    (flatViewOf exForest4).length = 2 ∧
    (flatViewOf (toggleF exForest4 exC4a.id)).length = 1 ∧
    (flatViewOf (toggleF exForest4 exC4a.id)).length + descendantCount exC4a
      ≠ (flatViewOf exForest4).length := by
  have hA : (flatViewOf exForest4).length = 2 := by
    simp [flatViewOf, buildFlatView, exForest4, exC4a, exC4b, exC4c]
  have hB : (flatViewOf (toggleF exForest4 exC4a.id)).length = 1 := by
    simp [flatViewOf, buildFlatView, toggleF, exForest4, exC4a, exC4b, exC4c, Task.id]
  have hD : descendantCount exC4a = 2 := by
    simp [descendantCount, allNodesF, exC4a, exC4b, exC4c, Task.children]
  refine ⟨?_, rfl, ?_, hD, hA, hB, ?_⟩
  · simp [flatViewOf, buildFlatView, exForest4, exC4a, exC4b, exC4c]
  · simp [exC4a, Task.children]
  · rw [hA, hB, hD]
    decide

/-- C4 (amended): for a task of the flat view that is expanded and
has at least one child, collapsing it removes exactly its visible
descendants (the flattening of its children list) from the flat view,
and toggling twice restores the forest — and hence the flat view's
contents and ordering — exactly. -/
theorem C4_toggle_visible_descendants (F : List Task) (t : Task) (hU : uniqueIds F)
    (hmem : t ∈ flatViewOf F) (hex : t.isExpanded = true) (_hch : t.children ≠ []) :
    (flatViewOf (toggleF F t.id)).length + (flatViewOf t.children).length
      = (flatViewOf F).length ∧
    toggleF (toggleF F t.id) t.id = F ∧
    flatViewOf (toggleF (toggleF F t.id) t.id) = flatViewOf F := by
  refine ⟨?_, toggleF_involution F t.id, by rw [toggleF_involution]⟩
  simp only [flatViewOf, buildFlatView_eq_specFlatten] at hmem ⊢
  exact specFlatten_toggle_length F t hU hmem hex

theorem C4_witness :
    (flatViewOf (toggleF exForest4 exC4a.id)).length + (flatViewOf exC4a.children).length
      = (flatViewOf exForest4).length :=
  (C4_toggle_visible_descendants exForest4 exC4a
    (by simp [uniqueIds, allNodesF, exForest4, exC4a, exC4b, exC4c, Task.id])
    (by simp [flatViewOf, buildFlatView, exForest4, exC4a, exC4b, exC4c])
    rfl
    (by simp [exC4a, Task.children])).1

end NF
